import Mathlib

/-!
# go-ipfs-api: the `add` family of operations (`add.go`)

A shallow embedding of `add.go`.  Pointer mutation of the request builder is
explicit state passing, the external collaborators (`os.Lstat`,
`files.NewSerialFile`, `RequestBuilder.Exec`) are fields of a `World`, and every
operation returns, next to its Go results, the trace of the collaborator calls
it made, so that "no request is dispatched" and "dispatched once" can be stated.
-/

namespace GoIpfsApi

/-- A Go `error` value. The nil error is `none : Option GoError`. -/
structure GoError where
  msg : String
deriving DecidableEq, Repr

/-- An `io.Reader`, represented by the bytes it yields. -/
structure Reader where
  bytes : List Nat
deriving DecidableEq, Repr

/-- The `os.FileInfo` that `os.Lstat` reports. -/
structure FileInfo where
  name : String
  isDir : Bool
deriving DecidableEq, Repr

/-- The result object `object` of `add.go`, lines 12-14. -/
structure object where
  Hash : String
deriving DecidableEq, Repr

namespace files

/-- The nodes of the imported package `go-ipfs-files` that `add.go` builds:
`NewReaderFile`, `NewLinkFile` and `NewSliceDirectory` over named entries. -/
inductive Node where
  | ReaderFile (r : Reader)
  | Symlink (target : String)
  | SliceDirectory (entries : List (String × Node))

/-- A `files.DirEntry`: a name and the node stored under it. -/
abbrev DirEntry := String × Node

/-- The call `files.NewReaderFile(r)`. -/
def NewReaderFile (r : Reader) : Node := Node.ReaderFile r

/-- The call `files.NewLinkFile(target, nil)`. -/
def NewLinkFile (target : String) : Node := Node.Symlink target

/-- The call `files.FileEntry(name, file)`. -/
def FileEntry (name : String) (file : Node) : DirEntry := (name, file)

/-- The call `files.NewSliceDirectory(entries)`. -/
def NewSliceDirectory (entries : List DirEntry) : Node := Node.SliceDirectory entries

/-- The entries of a node: those of a slice directory, none otherwise. -/
def Node.Entries : Node → List DirEntry
  | Node.SliceDirectory entries => entries
  | _ => []

/-- The multipart reader handle: the directory it will encode and the `form` flag. -/
structure MultiFileReader where
  directory : Node
  form : Bool

/-- The call `files.NewMultiFileReader(file, form)`. -/
def NewMultiFileReader (file : Node) (form : Bool) : MultiFileReader :=
  { directory := file, form := form }

end files

/-- The value of a query option: a Go `bool`, `int` or `string`. -/
inductive OptValue where
  | bool (b : Bool)
  | int (n : Int)
  | str (s : String)
deriving DecidableEq, Repr

/-- Modelled from the spec: the ordered option mapping of the request builder
(`requestbuilder.go` is not under src/). Setting a key that is present replaces
its value where it stands, a new key is appended: last write wins and insertion
order is preserved. -/
def setOpt : List (String × OptValue) → String → OptValue → List (String × OptValue)
  | [], key, value => [(key, value)]
  | (k, v) :: rest, key, value =>
    if k = key then (key, value) :: rest else (k, v) :: setOpt rest key value

/-- Modelled from the spec: the request builder (`requestbuilder.go` is not under
src/): a base operation name, the ordered option mapping and the body stream. -/
structure RequestBuilder where
  command : String
  opts : List (String × OptValue)
  body : Option files.MultiFileReader

/-- The value the option mapping of a builder holds for a key. -/
def RequestBuilder.lookup (rb : RequestBuilder) (key : String) : Option OptValue :=
  rb.opts.lookup key

/-- Modelled from the spec: `RequestBuilder.Option(key, value)` (not under src/)
records the option in the ordered mapping and returns the builder. -/
def RequestBuilder.Option (rb : RequestBuilder) (key : String) (value : OptValue) :
    RequestBuilder :=
  { rb with opts := setOpt rb.opts key value }

/-- Modelled from the spec: `RequestBuilder.Body(body)` (not under src/) attaches
the body-producing stream and returns the builder. -/
def RequestBuilder.Body (rb : RequestBuilder) (body : files.MultiFileReader) :
    RequestBuilder :=
  { rb with body := some body }

/-- The `*Shell` receiver. -/
structure Shell where
  url : String

/-- Modelled from the spec: `Shell.Request(command)` (`shell.go` is not under
src/) starts a builder for the operation with an empty option mapping and no
body. -/
def Shell.Request (_s : Shell) (command : String) : RequestBuilder :=
  { command := command, opts := [], body := none }

/-- The external collaborators of `add.go`: `os.Lstat`, `files.NewSerialFile` and
the dispatch and decoding step `RequestBuilder.Exec(ctx, &out)`, which receives
the result object and returns it as it left it together with its error. -/
structure World where
  Lstat : String → Except GoError FileInfo
  NewSerialFile : String → Bool → FileInfo → Except GoError files.Node
  Exec : RequestBuilder → object → object × Option GoError

/-- The type `AddOpts = func(*RequestBuilder) error` (add.go:16): the builder as
the function leaves it, and the error it returns. -/
abbrev AddOpts := RequestBuilder → RequestBuilder × Option GoError

/-- `OnlyHash` (add.go:18-23). -/
def OnlyHash (enabled : Bool) : AddOpts :=
  fun rb => (rb.Option "only-hash" (OptValue.bool enabled), none)

/-- `Pin` (add.go:25-30). -/
def Pin (enabled : Bool) : AddOpts :=
  fun rb => (rb.Option "pin" (OptValue.bool enabled), none)

/-- `Progress` (add.go:32-37). -/
def Progress (enabled : Bool) : AddOpts :=
  fun rb => (rb.Option "progress" (OptValue.bool enabled), none)

/-- `RawLeaves` (add.go:39-44). -/
def RawLeaves (enabled : Bool) : AddOpts :=
  fun rb => (rb.Option "raw-leaves" (OptValue.bool enabled), none)

/-- `Hash` (add.go:47-52). -/
def Hash (hash : String) : AddOpts :=
  fun rb => (rb.Option "hash" (OptValue.str hash), none)

/-- `CidVersion` (add.go:55-60). -/
def CidVersion (version : Int) : AddOpts :=
  fun rb => (rb.Option "cid-version" (OptValue.int version), none)

/-- A collaborator call made by an operation. -/
inductive Event where
  | option (returned : Option GoError)
  | exec (rb : RequestBuilder)

/-- What a call of an operation does: the identifier and error it returns, and
the option-function and `Exec` calls it made, in order. -/
structure Run where
  id : String
  err : Option GoError
  trace : List Event

/-- The requests an operation dispatched (the builders `Exec` was called on). -/
def Run.dispatched (r : Run) : List RequestBuilder :=
  r.trace.filterMap fun e =>
    match e with
    | Event.exec rb => some rb
    | Event.option _ => none

/-- The errors returned by the option functions an operation invoked. -/
def Run.optionCalls (r : Run) : List (Option GoError) :=
  r.trace.filterMap fun e =>
    match e with
    | Event.option x => some x
    | Event.exec _ => none

/-- The loop `for _, option := range options { option(rb) }` (add.go:70-72 and
113-115): each option function is called on the builder in turn and the error
it returns is dropped. -/
def applyOptions : List AddOpts → RequestBuilder → RequestBuilder × List Event
  | [], rb => (rb, [])
  | option :: rest, rb =>
    let r := option rb
    let s := applyOptions rest r.1
    (s.1, Event.option r.2 :: s.2)

/-- The statement `return out.Hash, rb.Body(reader).Exec(ctx, &out)` (add.go:73,
94, 116). The call is made first and `out.Hash` is read once it has returned
(the order of the gc toolchain, under which a successful add reports the
identifier the call decoded into `out`). -/
def execReturn (w : World) (rb : RequestBuilder) (reader : files.MultiFileReader)
    (out : object) (trace : List Event) : Run :=
  let req := rb.Body reader
  let res := w.Exec req out
  { id := res.1.Hash, err := res.2, trace := trace ++ [Event.exec req] }

/-- `Shell.Add` (add.go:63-74). -/
def Shell.Add (s : Shell) (w : World) (r : Reader) (options : List AddOpts) : Run :=
  let fr := files.NewReaderFile r
  let slf := files.NewSliceDirectory [files.FileEntry "" fr]
  let fileReader := files.NewMultiFileReader slf true
  let out : object := { Hash := "" }
  let rb := s.Request "add"
  let applied := applyOptions options rb
  execReturn w applied.1 fileReader out applied.2

/-- `Shell.AddNoPin` (add.go:78-80). -/
def Shell.AddNoPin (s : Shell) (w : World) (r : Reader) : Run :=
  s.Add w r [Pin false]

/-- `Shell.AddWithOpts` (add.go:84-86). -/
def Shell.AddWithOpts (s : Shell) (w : World) (r : Reader) (pin : Bool) (rawLeaves : Bool) :
    Run :=
  s.Add w r [Pin pin, RawLeaves rawLeaves]

/-- `Shell.AddLink` (add.go:88-95). -/
def Shell.AddLink (s : Shell) (w : World) (target : String) : Run :=
  let link := files.NewLinkFile target
  let slf := files.NewSliceDirectory [files.FileEntry "" link]
  let reader := files.NewMultiFileReader slf true
  let out : object := { Hash := "" }
  execReturn w (s.Request "add") reader out []

namespace filepath

/-- `os.IsPathSeparator` on Unix: the separator is the slash. -/
def IsPathSeparator (c : Char) : Bool := c == '/'

/-- The first loop of `filepath.Base`,
`for len(path) > 0 && os.IsPathSeparator(path[len(path)-1]) { path = path[0 : len(path)-1] }`:
the path without its trailing separators. -/
def stripTrailing (path : List Char) : List Char :=
  (path.reverse.dropWhile IsPathSeparator).reverse

/-- The second loop of `filepath.Base`,
`i := len(path) - 1; for i >= 0 && !os.IsPathSeparator(path[i]) { i-- }` followed by
`if i >= 0 { path = path[i+1:] }`: what follows the last separator, or the whole
path when it has none. -/
def lastElement (path : List Char) : List Char :=
  (path.reverse.takeWhile fun c => !IsPathSeparator c).reverse

/-- `filepath.Base` of the Go standard library (path/filepath, Unix, where the
separator is the slash and the volume name is empty): "." for the empty path,
then the two loops, then the separator when nothing is left. The separator is
ASCII, so the scan over characters is the scan over bytes. -/
def Base (path : String) : String :=
  if path = "" then "."
  else
    let p := lastElement (stripTrailing path.data)
    if p = [] then "/" else String.mk p

end filepath

/-- `Shell.AddDir` (add.go:98-117). -/
def Shell.AddDir (s : Shell) (w : World) (dir : String) (options : List AddOpts) : Run :=
  match w.Lstat dir with
  | Except.error err => { id := "", err := some err, trace := [] }
  | Except.ok stat =>
    match w.NewSerialFile dir false stat with
    | Except.error err => { id := "", err := some err, trace := [] }
    | Except.ok sf =>
      let slf := files.NewSliceDirectory [files.FileEntry (filepath.Base dir) sf]
      let reader := files.NewMultiFileReader slf true
      let out : object := { Hash := "" }
      let rb := (s.Request "add").Option "recursive" (OptValue.bool true)
      let applied := applyOptions options rb
      execReturn w applied.1 reader out applied.2

/-! ## Vocabulary of the claims -/

/-- An option built by one of the six constructors of `add.go`. -/
inductive StdOption where
  | OnlyHash (enabled : Bool)
  | Pin (enabled : Bool)
  | Progress (enabled : Bool)
  | RawLeaves (enabled : Bool)
  | Hash (hash : String)
  | CidVersion (version : Int)
deriving DecidableEq, Repr

/-- The option function the constructor of `add.go` returns. -/
def StdOption.toAddOpts : StdOption → AddOpts
  | StdOption.OnlyHash b => GoIpfsApi.OnlyHash b
  | StdOption.Pin b => GoIpfsApi.Pin b
  | StdOption.Progress b => GoIpfsApi.Progress b
  | StdOption.RawLeaves b => GoIpfsApi.RawLeaves b
  | StdOption.Hash h => GoIpfsApi.Hash h
  | StdOption.CidVersion n => GoIpfsApi.CidVersion n

/-- The key the query options surface documents for the constructor. -/
def StdOption.key : StdOption → String
  | StdOption.OnlyHash _ => "only-hash"
  | StdOption.Pin _ => "pin"
  | StdOption.Progress _ => "progress"
  | StdOption.RawLeaves _ => "raw-leaves"
  | StdOption.Hash _ => "hash"
  | StdOption.CidVersion _ => "cid-version"

/-- The value, with its documented type, that the constructor is given. -/
def StdOption.value : StdOption → OptValue
  | StdOption.OnlyHash b => OptValue.bool b
  | StdOption.Pin b => OptValue.bool b
  | StdOption.Progress b => OptValue.bool b
  | StdOption.RawLeaves b => OptValue.bool b
  | StdOption.Hash h => OptValue.str h
  | StdOption.CidVersion n => OptValue.int n

/-- The value of the last option in the list that sets the key, if one does. -/
def lastSet (options : List StdOption) (key : String) : Option OptValue :=
  (options.reverse.find? fun o => o.key == key).map StdOption.value

/-- The option function sets exactly `key` to `value`: it returns the nil error,
the mapping then holds `value` for `key`, every other key keeps what it held, and
the operation name and the body are untouched. -/
def SetsOnly (f : AddOpts) (key : String) (value : OptValue) : Prop :=
  ∀ rb : RequestBuilder,
    (f rb).2 = none ∧ (f rb).1.lookup key = some value ∧
    (∀ other : String, other ≠ key → (f rb).1.lookup other = rb.lookup other) ∧
    (f rb).1.command = rb.command ∧ (f rb).1.body = rb.body

/-- The name is the last path element of `dir` with the trailing separators
removed: `dir` is some prefix that is empty or ends in a separator, then the
name, which is not empty and holds no separator, then separators only. -/
def IsLastElement (dir name : String) : Prop :=
  ∃ front seps : List Char,
    dir.data = front ++ name.data ++ seps ∧
    (∀ c ∈ seps, c = '/') ∧ name.data ≠ [] ∧ '/' ∉ name.data ∧
    (front = [] ∨ front.getLast? = some '/')

/-! ## Concrete inputs -/

/-- A shell. -/
def demoShell : Shell := { url := "localhost:5001" }

/-- The tree a serial file of a directory `docs` with one file stands for. -/
def demoTree : files.Node :=
  files.Node.SliceDirectory [("a.txt", files.Node.ReaderFile { bytes := [104, 105] })]

/-- A world where every collaborator succeeds: `Exec` decodes an identifier into
the result object and returns the nil error. -/
def okWorld : World :=
  { Lstat := fun dir => Except.ok { name := dir, isDir := true }
    NewSerialFile := fun _ _ _ => Except.ok demoTree
    Exec := fun _ _ => ({ Hash := "QmOk" }, none) }

/-- A world whose `Exec` writes an identifier into the result object and then
returns an error (a response that decodes but whose stream fails afterwards). -/
def lateFailWorld : World :=
  { okWorld with Exec := fun _ _ => ({ Hash := "QmHalf" }, some { msg := "unexpected EOF" }) }

/-- A world whose `Exec` fails without touching the result object. -/
def cleanFailWorld : World :=
  { okWorld with Exec := fun _ out => (out, some { msg := "connection refused" }) }

/-- A world where `os.Lstat` fails. -/
def noStatWorld : World :=
  { okWorld with Lstat := fun _ => Except.error { msg := "no such file or directory" } }

/-- A world where `os.Lstat` succeeds and `files.NewSerialFile` fails. -/
def noSerialWorld : World :=
  { okWorld with NewSerialFile := fun _ _ _ => Except.error { msg := "unrecognized file type" } }

/-- A caller-written option function that sets `recursive` to false. -/
def notRecursive : AddOpts :=
  fun rb => (rb.Option "recursive" (OptValue.bool false), none)

/-- A caller-written option function that overwrites the builder it is handed with
a fresh one, `*rb = *s.Request("add")`. -/
def freshBuilder : AddOpts :=
  fun _ => (demoShell.Request "add", none)

/-- A caller-written option function that changes nothing and returns an error. -/
def failingOption : AddOpts :=
  fun rb => (rb, some { msg := "bad option" })

/-! ## Helper lemmas -/

theorem lookup_setOpt_self (m : List (String × OptValue)) (key : String) (value : OptValue) :
    (setOpt m key value).lookup key = some value := by
  induction m with
  | nil => simp [setOpt, List.lookup]
  | cons p rest ih =>
    obtain ⟨k, v⟩ := p
    by_cases h : k = key
    · simp [setOpt, h, List.lookup]
    · have h2 : (key == k) = false := by
        simp only [beq_eq_false_iff_ne, ne_eq]
        exact fun e => h e.symm
      simp [setOpt, h, List.lookup, h2, ih]

theorem lookup_setOpt_ne (m : List (String × OptValue)) (key other : String) (value : OptValue)
    (hne : other ≠ key) : (setOpt m key value).lookup other = m.lookup other := by
  induction m with
  | nil =>
    have h2 : (other == key) = false := by simpa using hne
    simp [setOpt, List.lookup, h2]
  | cons p rest ih =>
    obtain ⟨k, v⟩ := p
    by_cases h : k = key
    · have h2 : (other == key) = false := by simpa using hne
      simp [setOpt, h, List.lookup, h2]
    · by_cases h3 : other = k
      · simp [setOpt, h, List.lookup, h3]
      · have h4 : (other == k) = false := by simpa using h3
        simp [setOpt, h, List.lookup, h4, ih]

theorem applyOptions_fst (options : List AddOpts) (rb : RequestBuilder) :
    (applyOptions options rb).1 = options.foldl (fun b o => (o b).1) rb := by
  induction options generalizing rb with
  | nil => rfl
  | cons o rest ih => simp [applyOptions, ih]

theorem applyOptions_dispatched (options : List AddOpts) (rb : RequestBuilder) :
    (applyOptions options rb).2.filterMap (fun e =>
      match e with
      | Event.exec b => some b
      | Event.option _ => none) = [] := by
  induction options generalizing rb with
  | nil => rfl
  | cons o rest ih => simp [applyOptions, ih]

theorem applyOptions_optionCalls (options : List AddOpts) (rb : RequestBuilder) :
    ((applyOptions options rb).2.filterMap (fun e =>
      match e with
      | Event.option x => some x
      | Event.exec _ => none)).length = options.length := by
  induction options generalizing rb with
  | nil => rfl
  | cons o rest ih => simp [applyOptions, ih]

theorem execReturn_dispatched (w : World) (options : List AddOpts) (rb0 : RequestBuilder)
    (reader : files.MultiFileReader) (out : object) :
    (execReturn w (applyOptions options rb0).1 reader out (applyOptions options rb0).2).dispatched
      = [(applyOptions options rb0).1.Body reader] := by
  simp [execReturn, Run.dispatched, List.filterMap_append, applyOptions_dispatched]

/-! ## Failure before the request is built (C4) -/

/-- C4: if `os.Lstat` fails, or it succeeds and `files.NewSerialFile` fails, then
`AddDir` returns the empty identifier with exactly that error, calls none of the
option functions and dispatches no request. -/
theorem AddDir_early_failure (s : Shell) (w : World) (dir : String) (options : List AddOpts)
    (err : GoError)
    (h : w.Lstat dir = Except.error err ∨
      ∃ stat, w.Lstat dir = Except.ok stat ∧ w.NewSerialFile dir false stat = Except.error err) :
    (s.AddDir w dir options).id = "" ∧ (s.AddDir w dir options).err = some err ∧
    (s.AddDir w dir options).trace = [] ∧
    (s.AddDir w dir options).optionCalls = [] ∧ (s.AddDir w dir options).dispatched = [] := by
  rcases h with h | ⟨stat, h1, h2⟩
  · simp [Shell.AddDir, h, Run.optionCalls, Run.dispatched]
  · simp [Shell.AddDir, h1, h2, Run.optionCalls, Run.dispatched]

theorem AddDir_early_failure_witness :
    ((demoShell.AddDir noStatWorld "docs" [Pin true]).id = "" ∧
      (demoShell.AddDir noStatWorld "docs" [Pin true]).err
        = some { msg := "no such file or directory" } ∧
      (demoShell.AddDir noStatWorld "docs" [Pin true]).trace = [] ∧
      (demoShell.AddDir noStatWorld "docs" [Pin true]).optionCalls = [] ∧
      (demoShell.AddDir noStatWorld "docs" [Pin true]).dispatched = []) ∧
    ((demoShell.AddDir noSerialWorld "docs" [Pin true]).id = "" ∧
      (demoShell.AddDir noSerialWorld "docs" [Pin true]).err
        = some { msg := "unrecognized file type" } ∧
      (demoShell.AddDir noSerialWorld "docs" [Pin true]).trace = [] ∧
      (demoShell.AddDir noSerialWorld "docs" [Pin true]).optionCalls = [] ∧
      (demoShell.AddDir noSerialWorld "docs" [Pin true]).dispatched = []) :=
  ⟨AddDir_early_failure demoShell noStatWorld "docs" [Pin true]
      { msg := "no such file or directory" } (Or.inl rfl),
   AddDir_early_failure demoShell noSerialWorld "docs" [Pin true]
      { msg := "unrecognized file type" }
      (Or.inr ⟨{ name := "docs", isDir := true }, rfl, rfl⟩)⟩

/-! ## The entry tree of a single-file and of a link upload (C5) -/

/-- C5: for every reader and option list, `Add` dispatches one request whose body
is the multipart reader over a directory of exactly one entry, named by the empty
string and holding the file built from the reader; for every target, `AddLink`
does so with one entry of empty name holding the symlink to the target. -/
theorem Add_single_anonymous_entry (s : Shell) (w : World) (r : Reader)
    (options : List AddOpts) (target : String) :
    (∃ req mfr, (s.Add w r options).dispatched = [req] ∧ req.body = some mfr ∧
      mfr.directory.Entries = [("", files.Node.ReaderFile r)] ∧
      mfr.directory.Entries.length = 1) ∧
    (∃ req mfr, (s.AddLink w target).dispatched = [req] ∧ req.body = some mfr ∧
      mfr.directory.Entries = [("", files.Node.Symlink target)] ∧
      mfr.directory.Entries.length = 1) := by
  refine ⟨⟨_, _, execReturn_dispatched w options _ _ _, rfl, rfl, rfl⟩, ?_⟩
  exact ⟨_, _, rfl, rfl, rfl, rfl⟩

/-! ## Errors of option functions are dropped (C9) -/

/-- C9: whatever the option functions return, `Add` and (once the stat and
serial-file steps pass) `AddDir` call every option function of the list, dispatch
exactly one request, the builder on which all of them were applied in order with
the body attached, and return exactly the error of `Exec` on that request. -/
theorem option_errors_discarded (s : Shell) (w : World) (r : Reader) (dir : String)
    (options : List AddOpts) (stat : FileInfo) (sf : files.Node)
    (hstat : w.Lstat dir = Except.ok stat)
    (hsf : w.NewSerialFile dir false stat = Except.ok sf) :
    (∃ req, req = (options.foldl (fun b o => (o b).1) (s.Request "add")).Body
          (files.NewMultiFileReader
            (files.NewSliceDirectory [files.FileEntry "" (files.NewReaderFile r)]) true) ∧
      (s.Add w r options).dispatched = [req] ∧
      (s.Add w r options).optionCalls.length = options.length ∧
      (s.Add w r options).err = (w.Exec req { Hash := "" }).2) ∧
    (∃ req, req = (options.foldl (fun b o => (o b).1)
          ((s.Request "add").Option "recursive" (OptValue.bool true))).Body
          (files.NewMultiFileReader
            (files.NewSliceDirectory [files.FileEntry (filepath.Base dir) sf]) true) ∧
      (s.AddDir w dir options).dispatched = [req] ∧
      (s.AddDir w dir options).optionCalls.length = options.length ∧
      (s.AddDir w dir options).err = (w.Exec req { Hash := "" }).2) := by
  constructor
  · refine ⟨_, rfl, ?_, ?_, ?_⟩
    · rw [← applyOptions_fst]
      exact execReturn_dispatched w options _ _ _
    · simp [Shell.Add, execReturn, Run.optionCalls, List.filterMap_append,
        applyOptions_optionCalls]
    · rw [← applyOptions_fst]
      rfl
  · simp only [Shell.AddDir, hstat, hsf]
    refine ⟨_, rfl, ?_, ?_, ?_⟩
    · rw [← applyOptions_fst]
      exact execReturn_dispatched w options _ _ _
    · simp [execReturn, Run.optionCalls, List.filterMap_append, applyOptions_optionCalls]
    · rw [← applyOptions_fst]
      rfl

theorem option_errors_discarded_witness :
    ((∃ req, req = ([Pin true, failingOption, RawLeaves true].foldl (fun b o => (o b).1)
          (demoShell.Request "add")).Body
          (files.NewMultiFileReader (files.NewSliceDirectory
            [files.FileEntry "" (files.NewReaderFile { bytes := [104, 105] })]) true) ∧
      (demoShell.Add okWorld { bytes := [104, 105] }
        [Pin true, failingOption, RawLeaves true]).dispatched = [req] ∧
      (demoShell.Add okWorld { bytes := [104, 105] }
        [Pin true, failingOption, RawLeaves true]).optionCalls.length = 3 ∧
      (demoShell.Add okWorld { bytes := [104, 105] }
        [Pin true, failingOption, RawLeaves true]).err = (okWorld.Exec req { Hash := "" }).2) ∧
    (∃ req, req = ([Pin true, failingOption, RawLeaves true].foldl (fun b o => (o b).1)
          ((demoShell.Request "add").Option "recursive" (OptValue.bool true))).Body
          (files.NewMultiFileReader (files.NewSliceDirectory
            [files.FileEntry (filepath.Base "docs") demoTree]) true) ∧
      (demoShell.AddDir okWorld "docs"
        [Pin true, failingOption, RawLeaves true]).dispatched = [req] ∧
      (demoShell.AddDir okWorld "docs"
        [Pin true, failingOption, RawLeaves true]).optionCalls.length = 3 ∧
      (demoShell.AddDir okWorld "docs"
        [Pin true, failingOption, RawLeaves true]).err = (okWorld.Exec req { Hash := "" }).2)) ∧
    (demoShell.Add okWorld { bytes := [104, 105] }
        [Pin true, failingOption, RawLeaves true]).optionCalls
      = [none, some { msg := "bad option" }, none] ∧
    (demoShell.Add okWorld { bytes := [104, 105] }
        [Pin true, failingOption, RawLeaves true]).dispatched.map (fun b => b.opts)
      = [[("pin", OptValue.bool true), ("raw-leaves", OptValue.bool true)]] ∧
    (demoShell.Add okWorld { bytes := [104, 105] }
        [Pin true, failingOption, RawLeaves true]).err = none ∧
    (demoShell.AddDir okWorld "docs"
        [Pin true, failingOption, RawLeaves true]).dispatched.map (fun b => b.opts)
      = [[("recursive", OptValue.bool true), ("pin", OptValue.bool true),
          ("raw-leaves", OptValue.bool true)]] ∧
    (demoShell.AddDir okWorld "docs" [Pin true, failingOption, RawLeaves true]).err = none :=
  ⟨option_errors_discarded demoShell okWorld { bytes := [104, 105] } "docs"
      [Pin true, failingOption, RawLeaves true] { name := "docs", isDir := true } demoTree
      rfl rfl,
   rfl, rfl, rfl, rfl, rfl⟩

/-! ## The identifier of a failed add (C2) -/

/-- C2, as stated, fails: when `Exec` writes an identifier into the result object
and then returns an error, `Add`, `AddLink` and `AddDir` each return that error
together with the identifier `Exec` wrote. -/
theorem failed_add_reports_identifier :
    ((demoShell.Add lateFailWorld { bytes := [104, 105] } []).err
        = some { msg := "unexpected EOF" } ∧
      (demoShell.Add lateFailWorld { bytes := [104, 105] } []).id = "QmHalf") ∧
    ((demoShell.AddLink lateFailWorld "a.txt").err = some { msg := "unexpected EOF" } ∧
      (demoShell.AddLink lateFailWorld "a.txt").id = "QmHalf") ∧
    ((demoShell.AddDir lateFailWorld "docs" []).err = some { msg := "unexpected EOF" } ∧
      (demoShell.AddDir lateFailWorld "docs" []).id = "QmHalf") ∧
    ¬ (∀ (s : Shell) (w : World) (r : Reader) (options : List AddOpts),
        (s.Add w r options).err ≠ none → (s.Add w r options).id = "") := by
  refine ⟨⟨rfl, rfl⟩, ⟨rfl, rfl⟩, ⟨rfl, rfl⟩, ?_⟩
  intro h
  have h1 := h demoShell lateFailWorld { bytes := [104, 105] } [] (by simp [Shell.Add, execReturn, lateFailWorld])
  simp [Shell.Add, execReturn, lateFailWorld] at h1

/-- C2, amended: `Add`, `AddLink` and (once the stat and serial-file steps pass)
`AddDir` dispatch exactly one request and return the error of `Exec` together with
the `Hash` field of the result object as `Exec` left it, the object being handed
over with an empty `Hash`; an `AddDir` whose stat or serial-file step fails
dispatches nothing and returns the empty identifier with that error. Hence, when
`Exec` leaves the `Hash` field as it found it whenever it returns an error, every
call that returns a non-nil error returns the empty identifier; and an `Exec`
that writes an identifier and returns an error has that identifier returned
together with the error. -/
theorem add_identifier_is_Exec_hash (s : Shell) (w : World) (r : Reader) (target dir : String)
    (options : List AddOpts) :
    (∃ req, (s.Add w r options).dispatched = [req] ∧
      (s.Add w r options).id = (w.Exec req { Hash := "" }).1.Hash ∧
      (s.Add w r options).err = (w.Exec req { Hash := "" }).2) ∧
    (∃ req, (s.AddLink w target).dispatched = [req] ∧
      (s.AddLink w target).id = (w.Exec req { Hash := "" }).1.Hash ∧
      (s.AddLink w target).err = (w.Exec req { Hash := "" }).2) ∧
    ((∃ e, (w.Lstat dir = Except.error e ∨
          ∃ stat, w.Lstat dir = Except.ok stat ∧
            w.NewSerialFile dir false stat = Except.error e) ∧
        (s.AddDir w dir options).dispatched = [] ∧
        (s.AddDir w dir options).id = "" ∧ (s.AddDir w dir options).err = some e) ∨
      (∃ stat sf req, w.Lstat dir = Except.ok stat ∧
        w.NewSerialFile dir false stat = Except.ok sf ∧
        (s.AddDir w dir options).dispatched = [req] ∧
        (s.AddDir w dir options).id = (w.Exec req { Hash := "" }).1.Hash ∧
        (s.AddDir w dir options).err = (w.Exec req { Hash := "" }).2)) ∧
    ((∀ (rb : RequestBuilder) (out : object),
        (w.Exec rb out).2 ≠ none → (w.Exec rb out).1.Hash = out.Hash) →
      ((s.Add w r options).err ≠ none → (s.Add w r options).id = "") ∧
      ((s.AddLink w target).err ≠ none → (s.AddLink w target).id = "") ∧
      ((s.AddDir w dir options).err ≠ none → (s.AddDir w dir options).id = "")) ∧
    (∀ (h : String) (e : GoError),
      (∀ (rb : RequestBuilder) (out : object), w.Exec rb out = ({ Hash := h }, some e)) →
      ((s.Add w r options).id = h ∧ (s.Add w r options).err = some e) ∧
      ((s.AddLink w target).id = h ∧ (s.AddLink w target).err = some e) ∧
      (∀ stat sf, w.Lstat dir = Except.ok stat →
        w.NewSerialFile dir false stat = Except.ok sf →
        (s.AddDir w dir options).id = h ∧ (s.AddDir w dir options).err = some e)) := by
  refine ⟨⟨_, execReturn_dispatched w options _ _ _, rfl, rfl⟩, ⟨_, rfl, rfl, rfl⟩, ?_, ?_, ?_⟩
  · have hL : (∃ e, w.Lstat dir = Except.error e) ∨ ∃ stat, w.Lstat dir = Except.ok stat := by
      cases w.Lstat dir with
      | error e => exact Or.inl ⟨e, rfl⟩
      | ok stat => exact Or.inr ⟨stat, rfl⟩
    rcases hL with ⟨e, hstat⟩ | ⟨stat, hstat⟩
    · left
      exact ⟨e, Or.inl hstat, by simp [Shell.AddDir, hstat, Run.dispatched]⟩
    · have hN : (∃ e, w.NewSerialFile dir false stat = Except.error e) ∨
          ∃ sf, w.NewSerialFile dir false stat = Except.ok sf := by
        cases w.NewSerialFile dir false stat with
        | error e => exact Or.inl ⟨e, rfl⟩
        | ok sf => exact Or.inr ⟨sf, rfl⟩
      rcases hN with ⟨e, hsf⟩ | ⟨sf, hsf⟩
      · left
        exact ⟨e, Or.inr ⟨stat, hstat, hsf⟩,
          by simp [Shell.AddDir, hstat, hsf, Run.dispatched]⟩
      · right
        have hrun : ∃ req, (s.AddDir w dir options).dispatched = [req] ∧
            (s.AddDir w dir options).id = (w.Exec req { Hash := "" }).1.Hash ∧
            (s.AddDir w dir options).err = (w.Exec req { Hash := "" }).2 := by
          simp only [Shell.AddDir, hstat, hsf]
          exact ⟨_, execReturn_dispatched w options _ _ _, rfl, rfl⟩
        obtain ⟨req, h1, h2, h3⟩ := hrun
        exact ⟨stat, sf, req, hstat, hsf, h1, h2, h3⟩
  · intro hExec
    refine ⟨fun h => hExec _ _ h, fun h => hExec _ _ h, ?_⟩
    cases hstat : w.Lstat dir with
    | error e => simp [Shell.AddDir, hstat]
    | ok stat =>
      cases hsf : w.NewSerialFile dir false stat with
      | error e => simp [Shell.AddDir, hstat, hsf]
      | ok sf =>
        simp only [Shell.AddDir, hstat, hsf]
        intro h
        exact hExec _ _ h
  · intro h e hw
    refine ⟨?_, ?_, ?_⟩
    · simp [Shell.Add, execReturn, hw]
    · simp [Shell.AddLink, execReturn, hw]
    · intro stat sf hstat hsf
      simp [Shell.AddDir, hstat, hsf, execReturn, hw]

theorem add_identifier_is_Exec_hash_witness :
    (((demoShell.Add cleanFailWorld { bytes := [104, 105] } [Pin true]).err
          = some { msg := "connection refused" } ∧
        (demoShell.Add cleanFailWorld { bytes := [104, 105] } [Pin true]).id = "") ∧
      ((demoShell.AddLink cleanFailWorld "a.txt").err = some { msg := "connection refused" } ∧
        (demoShell.AddLink cleanFailWorld "a.txt").id = "") ∧
      ((demoShell.AddDir cleanFailWorld "docs" [Pin true]).err
          = some { msg := "connection refused" } ∧
        (demoShell.AddDir cleanFailWorld "docs" [Pin true]).id = "")) ∧
    (((demoShell.Add lateFailWorld { bytes := [104, 105] } [Pin true]).id = "QmHalf" ∧
        (demoShell.Add lateFailWorld { bytes := [104, 105] } [Pin true]).err
          = some { msg := "unexpected EOF" }) ∧
      ((demoShell.AddLink lateFailWorld "a.txt").id = "QmHalf" ∧
        (demoShell.AddLink lateFailWorld "a.txt").err = some { msg := "unexpected EOF" }) ∧
      ((demoShell.AddDir lateFailWorld "docs" [Pin true]).id = "QmHalf" ∧
        (demoShell.AddDir lateFailWorld "docs" [Pin true]).err
          = some { msg := "unexpected EOF" })) :=
  have h := (add_identifier_is_Exec_hash demoShell cleanFailWorld { bytes := [104, 105] }
    "a.txt" "docs" [Pin true]).2.2.2.1 (fun _ _ _ => rfl)
  have g := (add_identifier_is_Exec_hash demoShell lateFailWorld { bytes := [104, 105] }
    "a.txt" "docs" [Pin true]).2.2.2.2 "QmHalf" { msg := "unexpected EOF" } (fun _ _ => rfl)
  ⟨⟨⟨rfl, h.1 (by simp [Shell.Add, execReturn, cleanFailWorld])⟩,
    ⟨rfl, h.2.1 (by simp [Shell.AddLink, execReturn, cleanFailWorld])⟩,
    ⟨rfl, h.2.2 (by simp [Shell.AddDir, execReturn, cleanFailWorld, okWorld])⟩⟩,
   ⟨g.1, g.2.1, g.2.2 { name := "docs", isDir := true } demoTree rfl rfl⟩⟩

/-! ## The six constructors (C6) -/

theorem Option_setsOnly (key : String) (value : OptValue) :
    SetsOnly (fun rb => (rb.Option key value, none)) key value := by
  intro rb
  refine ⟨rfl, ?_, ?_, rfl, rfl⟩
  · exact lookup_setOpt_self rb.opts key value
  · intro other hne
    exact lookup_setOpt_ne rb.opts key other value hne

/-- C6: each constructor of `add.go`, applied to any request builder, returns the
nil error, sets its documented key to the value it was given (a bool for
only-hash, pin, progress and raw-leaves, a string for hash, an int for
cid-version) and leaves every other key, the operation name and the body as they
were. -/
theorem constructors_set_only_their_key :
    (∀ b : Bool, SetsOnly (OnlyHash b) "only-hash" (OptValue.bool b)) ∧
    (∀ b : Bool, SetsOnly (Pin b) "pin" (OptValue.bool b)) ∧
    (∀ b : Bool, SetsOnly (Progress b) "progress" (OptValue.bool b)) ∧
    (∀ b : Bool, SetsOnly (RawLeaves b) "raw-leaves" (OptValue.bool b)) ∧
    (∀ h : String, SetsOnly (Hash h) "hash" (OptValue.str h)) ∧
    (∀ n : Int, SetsOnly (CidVersion n) "cid-version" (OptValue.int n)) :=
  ⟨fun _ => Option_setsOnly _ _, fun _ => Option_setsOnly _ _, fun _ => Option_setsOnly _ _,
   fun _ => Option_setsOnly _ _, fun _ => Option_setsOnly _ _, fun _ => Option_setsOnly _ _⟩

/-! ## The deprecated wrappers (C7) -/

/-- C7: `AddNoPin(r)` is `Add(r, Pin(false))` and dispatches one request whose
option mapping is exactly pin = false; `AddWithOpts(r, pin, rawLeaves)` is
`Add(r, Pin(pin), RawLeaves(rawLeaves))` and dispatches one request whose option
mapping is exactly pin = pin, raw-leaves = rawLeaves. -/
theorem deprecated_wrappers_are_Add (s : Shell) (w : World) (r : Reader)
    (pin rawLeaves : Bool) :
    s.AddNoPin w r = s.Add w r [Pin false] ∧
    (∃ req, (s.AddNoPin w r).dispatched = [req] ∧ req.command = "add" ∧
      req.opts = [("pin", OptValue.bool false)] ∧
      (s.AddNoPin w r).id = (w.Exec req { Hash := "" }).1.Hash ∧
      (s.AddNoPin w r).err = (w.Exec req { Hash := "" }).2) ∧
    s.AddWithOpts w r pin rawLeaves = s.Add w r [Pin pin, RawLeaves rawLeaves] ∧
    (∃ req, (s.AddWithOpts w r pin rawLeaves).dispatched = [req] ∧ req.command = "add" ∧
      req.opts = [("pin", OptValue.bool pin), ("raw-leaves", OptValue.bool rawLeaves)] ∧
      (s.AddWithOpts w r pin rawLeaves).id = (w.Exec req { Hash := "" }).1.Hash ∧
      (s.AddWithOpts w r pin rawLeaves).err = (w.Exec req { Hash := "" }).2) := by
  refine ⟨rfl, ⟨_, rfl, rfl, rfl, rfl, rfl⟩, rfl, ⟨_, rfl, rfl, ?_, rfl, rfl⟩⟩
  simp [applyOptions, Pin, RawLeaves, RequestBuilder.Option, RequestBuilder.Body,
    Shell.Request, setOpt]

/-! ## Order of application and last write (C3) -/

theorem toAddOpts_eq (o : StdOption) (rb : RequestBuilder) :
    o.toAddOpts rb = (rb.Option o.key o.value, none) := by
  cases o <;> rfl

theorem lookup_toAddOpts (o : StdOption) (rb : RequestBuilder) (key : String) :
    (o.toAddOpts rb).1.lookup key = if o.key = key then some o.value else rb.lookup key := by
  rw [toAddOpts_eq]
  by_cases h : o.key = key
  · subst h
    simpa using lookup_setOpt_self rb.opts o.key o.value
  · simp only [h, if_false]
    exact lookup_setOpt_ne rb.opts o.key key o.value (fun e => h e.symm)

theorem lastSet_cons (o : StdOption) (options : List StdOption) (key : String) :
    lastSet (o :: options) key
      = (lastSet options key).or (if o.key = key then some o.value else none) := by
  unfold lastSet
  rw [List.reverse_cons, List.find?_append]
  cases h : options.reverse.find? (fun o => o.key == key) with
  | some x => simp
  | none =>
    by_cases hk : o.key = key
    · simp [List.find?, hk]
    · have hk2 : (o.key == key) = false := by simpa using hk
      simp [List.find?, hk, hk2]

theorem foldl_lookup (options : List StdOption) (rb : RequestBuilder) (key : String) :
    ((options.map StdOption.toAddOpts).foldl (fun b o => (o b).1) rb).lookup key
      = (lastSet options key).or (rb.lookup key) := by
  induction options generalizing rb with
  | nil => simp [lastSet]
  | cons o rest ih =>
    rw [List.map_cons, List.foldl_cons, ih, lookup_toAddOpts, lastSet_cons]
    cases lastSet rest key with
    | some x => simp
    | none =>
      by_cases hk : o.key = key
      · simp [hk]
      · simp [hk]

theorem key_ne_recursive (o : StdOption) : o.key ≠ "recursive" := by
  cases o <;> simp [StdOption.key]

theorem lastSet_recursive (options : List StdOption) : lastSet options "recursive" = none := by
  induction options with
  | nil => rfl
  | cons o rest ih => rw [lastSet_cons, ih]; simp [key_ne_recursive o]

/-- C3: for every list of options built from the six constructors, `Add` and
(once the stat and serial-file steps pass) `AddDir` dispatch one request in which
every key holds the value of the last option of the list that sets it (and no
value when none does, `recursive` apart, which `AddDir` holds at true); so
`Add(r, Pin(true), Pin(false))` dispatches pin = false. -/
theorem options_last_write_wins (s : Shell) (w : World) (r : Reader) (dir : String)
    (options : List StdOption) (stat : FileInfo) (sf : files.Node)
    (hstat : w.Lstat dir = Except.ok stat)
    (hsf : w.NewSerialFile dir false stat = Except.ok sf) :
    (∃ req, (s.Add w r (options.map StdOption.toAddOpts)).dispatched = [req] ∧
      ∀ key, req.lookup key = lastSet options key) ∧
    (∃ req, (s.AddDir w dir (options.map StdOption.toAddOpts)).dispatched = [req] ∧
      ∀ key, req.lookup key
        = if key = "recursive" then some (OptValue.bool true) else lastSet options key) ∧
    (∃ req, (s.Add w r [Pin true, Pin false]).dispatched = [req] ∧
      req.lookup "pin" = some (OptValue.bool false)) := by
  refine ⟨⟨_, execReturn_dispatched w _ _ _ _, ?_⟩, ?_, ⟨_, rfl, ?_⟩⟩
  · intro key
    have h := foldl_lookup options (s.Request "add") key
    rw [applyOptions_fst]
    simpa [RequestBuilder.lookup, RequestBuilder.Body, Shell.Request] using h
  · simp only [Shell.AddDir, hstat, hsf]
    refine ⟨_, execReturn_dispatched w _ _ _ _, ?_⟩
    intro key
    have h := foldl_lookup options
      ((s.Request "add").Option "recursive" (OptValue.bool true)) key
    rw [applyOptions_fst]
    by_cases hk : key = "recursive"
    · subst hk
      rw [lastSet_recursive] at h
      simpa [RequestBuilder.lookup, RequestBuilder.Body, Shell.Request,
        RequestBuilder.Option, setOpt] using h
    · have hk2 : ("recursive" == key) = false := by
        simp only [beq_eq_false_iff_ne, ne_eq]
        exact fun e => hk e.symm
      have hk3 : (key == "recursive") = false := by simpa using hk
      simp only [hk, if_false]
      simpa [RequestBuilder.lookup, RequestBuilder.Body, Shell.Request,
        RequestBuilder.Option, setOpt, List.lookup, hk2, hk3] using h
  · simp [applyOptions, Pin, RequestBuilder.Option, RequestBuilder.Body, Shell.Request,
      setOpt, RequestBuilder.lookup, List.lookup]

theorem options_last_write_wins_witness :
    (∃ req, (demoShell.Add okWorld { bytes := [104, 105] }
        ([StdOption.Pin true, StdOption.Hash "sha2-256", StdOption.Pin false].map
          StdOption.toAddOpts)).dispatched = [req] ∧
      ∀ key, req.lookup key
        = lastSet [StdOption.Pin true, StdOption.Hash "sha2-256", StdOption.Pin false] key) ∧
    (∃ req, (demoShell.AddDir okWorld "docs"
        ([StdOption.Pin true, StdOption.Hash "sha2-256", StdOption.Pin false].map
          StdOption.toAddOpts)).dispatched = [req] ∧
      ∀ key, req.lookup key
        = if key = "recursive" then some (OptValue.bool true)
          else lastSet [StdOption.Pin true, StdOption.Hash "sha2-256", StdOption.Pin false]
            key) ∧
    (∃ req, (demoShell.Add okWorld { bytes := [104, 105] } [Pin true, Pin false]).dispatched
        = [req] ∧
      req.lookup "pin" = some (OptValue.bool false)) :=
  options_last_write_wins demoShell okWorld { bytes := [104, 105] } "docs"
    [StdOption.Pin true, StdOption.Hash "sha2-256", StdOption.Pin false]
    { name := "docs", isDir := true } demoTree rfl rfl

/-! ## The recursive flag of a directory add (C1) -/

theorem foldl_keeps (P : RequestBuilder → Prop) (options : List AddOpts)
    (hkeep : ∀ o ∈ options, ∀ rb : RequestBuilder, P rb → P (o rb).1)
    (rb : RequestBuilder) (h0 : P rb) :
    P (options.foldl (fun b o => (o b).1) rb) := by
  induction options generalizing rb with
  | nil => exact h0
  | cons o rest ih =>
    rw [List.foldl_cons]
    exact ih (fun o2 h2 => hkeep o2 (List.mem_cons_of_mem _ h2)) _
      (hkeep o (List.mem_cons_self _ _) rb h0)

/-- C1, as stated, fails: the stat and serial-file steps pass and the caller passes
an option function that sets `recursive` to false, or one that overwrites the
builder with a fresh one; the request `AddDir` dispatches carries
recursive = false in the first case and no `recursive` option in the second. -/
theorem AddDir_recursive_overridden :
    okWorld.Lstat "docs" = Except.ok { name := "docs", isDir := true } ∧
    okWorld.NewSerialFile "docs" false { name := "docs", isDir := true } = Except.ok demoTree ∧
    (demoShell.AddDir okWorld "docs" [notRecursive]).dispatched.map
        (fun b => b.lookup "recursive") = [some (OptValue.bool false)] ∧
    (demoShell.AddDir okWorld "docs" [freshBuilder]).dispatched.map
        (fun b => b.lookup "recursive") = [none] ∧
    ¬ (∀ req ∈ (demoShell.AddDir okWorld "docs" [notRecursive]).dispatched,
        req.lookup "recursive" = some (OptValue.bool true)) := by
  refine ⟨rfl, rfl, ?_, ?_, ?_⟩
  · simp [Shell.AddDir, okWorld, execReturn, Run.dispatched, applyOptions, notRecursive,
      RequestBuilder.Option, RequestBuilder.Body, RequestBuilder.lookup, Shell.Request, setOpt,
      List.lookup]
  · simp [Shell.AddDir, okWorld, execReturn, Run.dispatched, applyOptions, freshBuilder,
      RequestBuilder.Option, RequestBuilder.Body, RequestBuilder.lookup, Shell.Request, setOpt,
      List.lookup]
  · simp [Shell.AddDir, okWorld, execReturn, Run.dispatched, applyOptions, notRecursive,
      RequestBuilder.Option, RequestBuilder.Body, RequestBuilder.lookup, Shell.Request, setOpt,
      List.lookup]

theorem stdOption_keeps_recursive (o : StdOption) (rb : RequestBuilder) :
    (o.toAddOpts rb).1.lookup "recursive" = rb.lookup "recursive" := by
  rw [lookup_toAddOpts]
  simp [key_ne_recursive o]

/-- C1, amended: for every directory that passes the stat and serial-file steps
and every list of option functions, `AddDir` dispatches exactly one request, the
builder on which recursive = true was set first and the option functions were
then applied in the order given, with the body attached. That request carries
recursive = true whenever no option function of the list replaces recursive =
true once it is set; none of the six constructors of `add.go` touches
`recursive`, so it does for every list built from them; and an option function
that sets `recursive` to a value, applied last, has the request carry that
value. -/
theorem AddDir_recursive_set_first (s : Shell) (w : World) (dir : String)
    (options : List AddOpts) (stat : FileInfo) (sf : files.Node)
    (hstat : w.Lstat dir = Except.ok stat)
    (hsf : w.NewSerialFile dir false stat = Except.ok sf) :
    (∃ req, req = (options.foldl (fun b o => (o b).1)
          ((s.Request "add").Option "recursive" (OptValue.bool true))).Body
          (files.NewMultiFileReader
            (files.NewSliceDirectory [files.FileEntry (filepath.Base dir) sf]) true) ∧
      (s.AddDir w dir options).dispatched = [req]) ∧
    ((∀ o ∈ options, ∀ rb : RequestBuilder,
        rb.lookup "recursive" = some (OptValue.bool true) →
        (o rb).1.lookup "recursive" = some (OptValue.bool true)) →
      ∃ req, (s.AddDir w dir options).dispatched = [req] ∧
        req.lookup "recursive" = some (OptValue.bool true)) ∧
    (∀ (o : StdOption) (rb : RequestBuilder),
      (o.toAddOpts rb).1.lookup "recursive" = rb.lookup "recursive") ∧
    (∀ std : List StdOption,
      ∃ req, (s.AddDir w dir (std.map StdOption.toAddOpts)).dispatched = [req] ∧
        req.lookup "recursive" = some (OptValue.bool true)) ∧
    (∀ v : OptValue,
      ∃ req, (s.AddDir w dir
          (options ++ [fun rb => (rb.Option "recursive" v, none)])).dispatched = [req] ∧
        req.lookup "recursive" = some v) := by
  have hkept : ∀ opts : List AddOpts,
      (∀ o ∈ opts, ∀ rb : RequestBuilder,
        rb.lookup "recursive" = some (OptValue.bool true) →
        (o rb).1.lookup "recursive" = some (OptValue.bool true)) →
      ∃ req, (s.AddDir w dir opts).dispatched = [req] ∧
        req.lookup "recursive" = some (OptValue.bool true) := by
    intro opts hkeep
    simp only [Shell.AddDir, hstat, hsf]
    refine ⟨_, execReturn_dispatched w _ _ _ _, ?_⟩
    rw [applyOptions_fst]
    have h := foldl_keeps (fun rb => rb.lookup "recursive" = some (OptValue.bool true)) opts
      hkeep ((s.Request "add").Option "recursive" (OptValue.bool true))
      (lookup_setOpt_self _ _ _)
    simpa [RequestBuilder.lookup, RequestBuilder.Body] using h
  refine ⟨?_, hkept options, stdOption_keeps_recursive, ?_, ?_⟩
  · simp only [Shell.AddDir, hstat, hsf]
    refine ⟨_, rfl, ?_⟩
    rw [← applyOptions_fst]
    exact execReturn_dispatched w options _ _ _
  · intro std
    apply hkept
    intro o ho rb hrb
    obtain ⟨x, _, rfl⟩ := List.mem_map.mp ho
    rw [stdOption_keeps_recursive]
    exact hrb
  · intro v
    simp only [Shell.AddDir, hstat, hsf]
    refine ⟨_, execReturn_dispatched w _ _ _ _, ?_⟩
    rw [applyOptions_fst, List.foldl_append]
    simpa [RequestBuilder.lookup, RequestBuilder.Body, RequestBuilder.Option] using
      lookup_setOpt_self _ "recursive" v

theorem AddDir_recursive_set_first_witness :
    (demoShell.AddDir okWorld "docs" [Pin false, CidVersion 1, failingOption]).dispatched.map
        (fun b => b.opts)
      = [[("recursive", OptValue.bool true), ("pin", OptValue.bool false),
          ("cid-version", OptValue.int 1)]] ∧
    (∃ req, (demoShell.AddDir okWorld "docs"
        [Pin false, CidVersion 1, failingOption]).dispatched = [req] ∧
      req.lookup "recursive" = some (OptValue.bool true)) ∧
    (∃ req, (demoShell.AddDir okWorld "docs"
        ([StdOption.Pin false, StdOption.Hash "sha2-256"].map StdOption.toAddOpts)).dispatched
        = [req] ∧
      req.lookup "recursive" = some (OptValue.bool true)) ∧
    (∃ req, (demoShell.AddDir okWorld "docs"
        ([Pin false, CidVersion 1, failingOption] ++
          [fun rb => (rb.Option "recursive" (OptValue.bool false), none)])).dispatched
        = [req] ∧
      req.lookup "recursive" = some (OptValue.bool false)) :=
  have h := AddDir_recursive_set_first demoShell okWorld "docs"
    [Pin false, CidVersion 1, failingOption] { name := "docs", isDir := true } demoTree rfl rfl
  ⟨rfl,
   h.2.1 (by
      intro o ho rb hrb
      simp only [List.mem_cons, List.mem_singleton, List.not_mem_nil, or_false] at ho
      rcases ho with h1 | h1 | h1
      · subst h1
        exact (stdOption_keeps_recursive (StdOption.Pin false) rb).trans hrb
      · subst h1
        exact (stdOption_keeps_recursive (StdOption.CidVersion 1) rb).trans hrb
      · subst h1
        exact hrb),
   h.2.2.2.1 [StdOption.Pin false, StdOption.Hash "sha2-256"],
   h.2.2.2.2 (OptValue.bool false)⟩

/-! ## The root entry name of a directory add (C10) -/

theorem isPathSeparator_iff (c : Char) : filepath.IsPathSeparator c = true ↔ c = '/' := by
  simp [filepath.IsPathSeparator]

theorem lastElement_stripTrailing (l : List Char) :
    filepath.lastElement (filepath.stripTrailing l)
      = ((l.reverse.dropWhile filepath.IsPathSeparator).takeWhile
          fun c => !filepath.IsPathSeparator c).reverse := by
  simp [filepath.lastElement, filepath.stripTrailing]

theorem lastElement_no_separator (l : List Char) : '/' ∉ filepath.lastElement l := by
  intro h
  have h2 := List.mem_takeWhile_imp (List.mem_reverse.mp h)
  simp [filepath.IsPathSeparator] at h2

theorem base_of_separators (l : List Char) (hall : ∀ c ∈ l, c = '/') :
    filepath.lastElement (filepath.stripTrailing l) = [] := by
  have h : l.reverse.dropWhile filepath.IsPathSeparator = [] := by
    rw [List.dropWhile_eq_nil_iff]
    intro x hx
    rw [isPathSeparator_iff]
    exact hall x (List.mem_reverse.mp hx)
  rw [lastElement_stripTrailing, h]
  rfl

theorem base_decomposition (l : List Char) (hsome : ∃ c ∈ l, c ≠ '/') :
    filepath.lastElement (filepath.stripTrailing l) ≠ [] ∧
    ∃ front seps : List Char,
      l = front ++ filepath.lastElement (filepath.stripTrailing l) ++ seps ∧
      (∀ c ∈ seps, c = '/') ∧ (front = [] ∨ front.getLast? = some '/') := by
  obtain ⟨c, hc, hne⟩ := hsome
  rw [lastElement_stripTrailing]
  generalize hR : l.reverse.dropWhile filepath.IsPathSeparator = R
  have hsplit : l.reverse = l.reverse.takeWhile filepath.IsPathSeparator ++ R := by
    rw [← hR]
    exact (List.takeWhile_append_dropWhile _ _).symm
  have hRne : R ≠ [] := by
    intro h0
    rw [h0, List.dropWhile_eq_nil_iff] at hR
    have := hR c (List.mem_reverse.mpr hc)
    rw [isPathSeparator_iff] at this
    exact hne this
  have hhead := List.head_dropWhile_not filepath.IsPathSeparator l.reverse (by rw [hR]; exact hRne)
  constructor
  · cases R with
    | nil => exact absurd rfl hRne
    | cons x rest =>
      have hx : filepath.IsPathSeparator x = false := by
        simpa [hR] using hhead
      simp [List.takeWhile, hx]
  · refine ⟨(R.dropWhile fun c => !filepath.IsPathSeparator c).reverse,
      (l.reverse.takeWhile filepath.IsPathSeparator).reverse, ?_, ?_, ?_⟩
    · rw [← List.reverse_append, List.takeWhile_append_dropWhile, ← List.reverse_append,
        ← hsplit, List.reverse_reverse]
    · intro d hd
      have := List.mem_takeWhile_imp (List.mem_reverse.mp hd)
      exact (isPathSeparator_iff d).mp this
    · cases hD : R.dropWhile (fun c => !filepath.IsPathSeparator c) with
      | nil => exact Or.inl rfl
      | cons y rest =>
        right
        have h2 := List.head?_dropWhile_not (fun c => !filepath.IsPathSeparator c) R
        rw [hD] at h2
        simp only [List.head?_cons, Bool.not_eq_false_eq_eq_true] at h2
        have hy : y = '/' := (isPathSeparator_iff y).mp (by simpa using h2)
        simp [hy]

theorem Base_of_element (dir : String) (hsome : ∃ c ∈ dir.data, c ≠ '/') :
    filepath.Base dir = String.mk (filepath.lastElement (filepath.stripTrailing dir.data)) := by
  have hne : dir ≠ "" := by
    rintro rfl
    obtain ⟨c, hc, _⟩ := hsome
    simp at hc
  have h := (base_decomposition dir.data hsome).1
  simp [filepath.Base, hne, h]

theorem Base_of_separators (dir : String) (hne : dir ≠ "") (hall : ∀ c ∈ dir.data, c = '/') :
    filepath.Base dir = "/" := by
  simp [filepath.Base, hne, base_of_separators dir.data hall]

/-- C10: once the stat and serial-file steps pass, `AddDir` dispatches one request
whose body is the multipart reader over a directory of one entry, named
`filepath.Base(dir)` and holding the serial file. That name is never empty; when
`dir` has a character other than the separator it is the last path element of
`dir` with the trailing separators removed and holds no separator; it holds a
separator only when `dir` is made of separators alone, and then it is the
separator itself. -/
theorem AddDir_root_name (s : Shell) (w : World) (dir : String) (options : List AddOpts)
    (stat : FileInfo) (sf : files.Node)
    (hstat : w.Lstat dir = Except.ok stat)
    (hsf : w.NewSerialFile dir false stat = Except.ok sf) :
    (∃ req mfr, (s.AddDir w dir options).dispatched = [req] ∧ req.body = some mfr ∧
      mfr.directory.Entries = [(filepath.Base dir, sf)]) ∧
    filepath.Base dir ≠ "" ∧
    ((∃ c ∈ dir.data, c ≠ '/') →
      IsLastElement dir (filepath.Base dir) ∧ '/' ∉ (filepath.Base dir).data) ∧
    ('/' ∈ (filepath.Base dir).data →
      dir ≠ "" ∧ (∀ c ∈ dir.data, c = '/') ∧ filepath.Base dir = "/") ∧
    (dir ≠ "" → (∀ c ∈ dir.data, c = '/') → filepath.Base dir = "/") := by
  have hElem : (∃ c ∈ dir.data, c ≠ '/') →
      IsLastElement dir (filepath.Base dir) ∧ '/' ∉ (filepath.Base dir).data := by
    intro hsome
    rw [Base_of_element dir hsome]
    obtain ⟨hne, front, seps, hsplit, hseps, hfront⟩ := base_decomposition dir.data hsome
    exact ⟨⟨front, seps, hsplit, hseps, hne, lastElement_no_separator _, hfront⟩,
      lastElement_no_separator _⟩
  refine ⟨?_, ?_, hElem, ?_, Base_of_separators dir⟩
  · simp only [Shell.AddDir, hstat, hsf]
    exact ⟨_, _, execReturn_dispatched w options _ _ _, rfl, rfl⟩
  · by_cases h0 : dir = ""
    · subst h0
      decide
    · by_cases hsome : ∃ c ∈ dir.data, c ≠ '/'
      · rw [Base_of_element dir hsome]
        intro h
        have h2 := congrArg String.data h
        exact (base_decomposition dir.data hsome).1 h2
      · push_neg at hsome
        rw [Base_of_separators dir h0 hsome]
        decide
  · intro hmem
    by_cases h0 : dir = ""
    · subst h0
      simp [filepath.Base] at hmem
    · by_cases hsome : ∃ c ∈ dir.data, c ≠ '/'
      · exact absurd hmem (hElem hsome).2
      · push_neg at hsome
        exact ⟨h0, hsome, Base_of_separators dir h0 hsome⟩

theorem AddDir_root_name_witness :
    ((∃ req mfr, (demoShell.AddDir okWorld "/home/user/docs//" [Pin true]).dispatched = [req] ∧
      req.body = some mfr ∧
      mfr.directory.Entries = [(filepath.Base "/home/user/docs//", demoTree)]) ∧
    filepath.Base "/home/user/docs//" ≠ "" ∧
    ((∃ c ∈ "/home/user/docs//".data, c ≠ '/') →
      IsLastElement "/home/user/docs//" (filepath.Base "/home/user/docs//") ∧
      '/' ∉ (filepath.Base "/home/user/docs//").data) ∧
    ('/' ∈ (filepath.Base "/home/user/docs//").data →
      "/home/user/docs//" ≠ "" ∧ (∀ c ∈ "/home/user/docs//".data, c = '/') ∧
      filepath.Base "/home/user/docs//" = "/") ∧
    ("/home/user/docs//" ≠ "" → (∀ c ∈ "/home/user/docs//".data, c = '/') →
      filepath.Base "/home/user/docs//" = "/")) ∧
    filepath.Base "/home/user/docs//" = "docs" ∧ filepath.Base "///" = "/" ∧
    filepath.Base "docs" = "docs" :=
  ⟨AddDir_root_name demoShell okWorld "/home/user/docs//" [Pin true]
      { name := "/home/user/docs//", isDir := true } demoTree rfl rfl,
   by decide, by decide, by decide⟩

/-! ## The success path -/

/-- When `Exec` returns the nil error, `Add`, `AddLink` and (once the stat and
serial-file steps pass) `AddDir` return the nil error and the identifier that
`Exec` left in the result object, which it received with an empty `Hash`. -/
theorem successful_add_returns_decoded_identifier (s : Shell) (w : World) (r : Reader)
    (target dir : String) (options : List AddOpts) (stat : FileInfo) (sf : files.Node)
    (hstat : w.Lstat dir = Except.ok stat)
    (hsf : w.NewSerialFile dir false stat = Except.ok sf)
    (hExec : ∀ (rb : RequestBuilder) (out : object), (w.Exec rb out).2 = none) :
    (∃ req, (s.Add w r options).dispatched = [req] ∧ (s.Add w r options).err = none ∧
      (s.Add w r options).id = (w.Exec req { Hash := "" }).1.Hash) ∧
    (∃ req, (s.AddLink w target).dispatched = [req] ∧ (s.AddLink w target).err = none ∧
      (s.AddLink w target).id = (w.Exec req { Hash := "" }).1.Hash) ∧
    (∃ req, (s.AddDir w dir options).dispatched = [req] ∧
      (s.AddDir w dir options).err = none ∧
      (s.AddDir w dir options).id = (w.Exec req { Hash := "" }).1.Hash) := by
  refine ⟨⟨_, execReturn_dispatched w options _ _ _, hExec _ _, rfl⟩,
    ⟨_, rfl, hExec _ _, rfl⟩, ?_⟩
  simp only [Shell.AddDir, hstat, hsf]
  exact ⟨_, execReturn_dispatched w options _ _ _, hExec _ _, rfl⟩

theorem successful_add_returns_decoded_identifier_witness :
    ((∃ req, (demoShell.Add okWorld { bytes := [104, 105] } [Pin true]).dispatched = [req] ∧
      (demoShell.Add okWorld { bytes := [104, 105] } [Pin true]).err = none ∧
      (demoShell.Add okWorld { bytes := [104, 105] } [Pin true]).id
        = (okWorld.Exec req { Hash := "" }).1.Hash) ∧
    (∃ req, (demoShell.AddLink okWorld "a.txt").dispatched = [req] ∧
      (demoShell.AddLink okWorld "a.txt").err = none ∧
      (demoShell.AddLink okWorld "a.txt").id = (okWorld.Exec req { Hash := "" }).1.Hash) ∧
    (∃ req, (demoShell.AddDir okWorld "docs" [Pin true]).dispatched = [req] ∧
      (demoShell.AddDir okWorld "docs" [Pin true]).err = none ∧
      (demoShell.AddDir okWorld "docs" [Pin true]).id
        = (okWorld.Exec req { Hash := "" }).1.Hash)) ∧
    (demoShell.Add okWorld { bytes := [104, 105] } [Pin true]).id = "QmOk" ∧
    (demoShell.AddLink okWorld "a.txt").id = "QmOk" ∧
    (demoShell.AddDir okWorld "docs" [Pin true]).id = "QmOk" :=
  ⟨successful_add_returns_decoded_identifier demoShell okWorld { bytes := [104, 105] } "a.txt"
      "docs" [Pin true] { name := "docs", isDir := true } demoTree rfl rfl (fun _ _ => rfl),
   rfl, rfl, rfl⟩

/-- `AddLink` takes no options: the one request it dispatches is for the operation
`add` and carries an empty option mapping. -/
theorem AddLink_dispatches_without_options (s : Shell) (w : World) (target : String) :
    ∃ req, (s.AddLink w target).dispatched = [req] ∧ req.command = "add" ∧ req.opts = [] ∧
      (s.AddLink w target).optionCalls = [] :=
  ⟨_, rfl, rfl, rfl, rfl⟩

end GoIpfsApi
